import Mathlib

/-!
Verification development for the obsidian-human-readable-dates plugin
(src/main.ts). The plugin scans text for date strings in the fixed layout
"ddd MMM DD YYYY HH:mm" (time optional), parses them to JavaScript Date
values, and renders a human-relative phrase.

Model conventions:
* A JavaScript Date value is its timestamp in milliseconds since the Unix
  epoch, as an integer (`ℤ`).  All dates constructed by the plugin have
  seconds and milliseconds equal to zero, and all arithmetic is wall-clock
  local time in a fixed-offset calendar (no DST), so local civil days are
  exactly the blocks of 86400000 ms and minute/hour fields are residues.
* JavaScript numbers that arise here are exact rationals (`ℚ`): every
  quantity the source divides is small enough that IEEE doubles are exact
  on the values reached in this program, so `ℚ` is a faithful model.
* `Int./` and `Int.%` in Lean (with Mathlib) are Euclidean division and
  remainder; for the positive divisors used below they agree with floor
  division, which is the correct semantics for epoch arithmetic.
-/

attribute [local semireducible] Rat.add Rat.sub Rat.mul Rat.inv

/-- Model of JavaScript Math.round on an exact rational: rounds half
toward positive infinity, i.e. the floor of q + 1/2.  Stated with
Rat.floor so that the kernel can evaluate it on concrete inputs; the
lemma jsRound_eq below identifies it with the mathematical floor. -/
def jsRound (q : ℚ) : ℤ := Rat.floor (q + 1/2)

/-- Model of JavaScript Math.ceil on an exact rational, as the negated
floor of the negation; the lemma jsCeil_eq below identifies it with the
mathematical ceiling. -/
def jsCeil (q : ℚ) : ℤ := -Rat.floor (-q)

theorem ratFloor_eq (x : ℚ) : Rat.floor x = ⌊x⌋ := by
  rw [Rat.floor_def', Rat.floor_def]

theorem jsRound_eq (q : ℚ) : jsRound q = ⌊q + 1/2⌋ := by
  unfold jsRound; rw [ratFloor_eq]

theorem jsCeil_eq (q : ℚ) : jsCeil q = ⌈q⌉ := by
  unfold jsCeil; rw [ratFloor_eq, Int.floor_neg, neg_neg]

/-- Modelled from the spec: round-half-away-from-zero on an exact
rational, the rounding mode the specification names for the whole-day
difference. -/
def roundHalfAwayFromZero (q : ℚ) : ℤ :=
  if 0 ≤ q then ⌊q + 1/2⌋ else -⌊-q + 1/2⌋

/-- Days since 1970-01-01 of the civil date (y, m, d) with m in 1..12 and
d an arbitrary integer (day overflow rolls over linearly, exactly as the
JavaScript Date constructor normalizes out-of-range days).  This is the
standard civil-from-days inverse used to model the ECMAScript local-time
Date constructor in a fixed-offset zone. -/
def daysFromCivil (y m d : ℤ) : ℤ :=
  let yy := y - (if m ≤ 2 then 1 else 0)
  let era := yy / 400
  let yoe := yy - era * 400
  let mp := if 2 < m then m - 3 else m + 9
  let doy := (153 * mp + 2) / 5 + d - 1
  let doe := yoe * 365 + yoe / 4 - yoe / 100 + doy
  era * 146097 + doe - 719468

/-- Model of the JavaScript constructor
new Date(year, monthIndex, day, hour, minute) evaluated in local time:
the resulting timestamp in milliseconds.  monthIndex is 0-based and rolls
over into years; day, hour and minute roll over linearly; a year in 0..99
is interpreted as 1900+year, as ECMAScript specifies for this
constructor. -/
def jsDate (year monthIndex day hour minute : ℤ) : ℤ :=
  let fullYear := if 0 ≤ year ∧ year ≤ 99 then year + 1900 else year
  let y := fullYear + monthIndex / 12
  let m := monthIndex % 12
  daysFromCivil y (m + 1) day * 86400000 + hour * 3600000 + minute * 60000

/-- Model of Date.prototype.getHours in local time. -/
def getHours (t : ℤ) : ℤ := t % 86400000 / 3600000

/-- Model of Date.prototype.getMinutes in local time. -/
def getMinutes (t : ℤ) : ℤ := t % 3600000 / 60000

/-- src/main.ts line 230: the date has a time component when its hour or
minute field is nonzero. -/
def hasTimeComponent (t : ℤ) : Bool := getHours t != 0 || getMinutes t != 0

/-- src/main.ts lines 220-221: new Date(d.getFullYear(), d.getMonth(),
d.getDate()) reconstructs the date at local midnight, i.e. clears the
time-of-day; in the fixed-offset millisecond model this is truncation to
the enclosing multiple of 86400000. -/
def truncToMidnight (t : ℤ) : ℤ := 86400000 * (t / 86400000)

/-- src/main.ts line 222: diffDays = Math.round((parsedDateMidnight -
nowMidnight) / (1000 * 60 * 60 * 24)). -/
def diffDaysOf (parsedDate now : ℤ) : ℤ :=
  jsRound (((truncToMidnight parsedDate - truncToMidnight now : ℤ) : ℚ) /
    (1000 * 60 * 60 * 24))

/-- src/main.ts line 217: diffHours = diffMs / (1000 * 60 * 60). -/
def diffHoursOf (parsedDate now : ℤ) : ℚ :=
  ((parsedDate - now : ℤ) : ℚ) / (1000 * 60 * 60)

/-- src/main.ts line 234: diffMinutes = diffMs / (1000 * 60). -/
def diffMinutesOf (parsedDate now : ℤ) : ℚ :=
  ((parsedDate - now : ℤ) : ℚ) / (1000 * 60)

/-- src/main.ts lines 233-253: the minute/hour precision branch of
formatDateAsHumanReadable, entered when the parsed date has a time
component and is less than 24 hours away. -/
def minuteHourTier (parsedDate now : ℤ) : String :=
  let diffMinutes := diffMinutesOf parsedDate now
  let absDiffMinutes := |diffMinutes|
  if absDiffMinutes < 5 then "Now"
  else if absDiffMinutes < 60 then
    let minutesDiff := jsRound absDiffMinutes
    if diffMinutes < 0 then
      if minutesDiff = 1 then "1 min ago" else toString minutesDiff ++ " mins ago"
    else
      if minutesDiff = 1 then "In 1 min" else "In " ++ toString minutesDiff ++ " mins"
  else
    let hoursDiff := jsRound |diffHoursOf parsedDate now|
    if diffHoursOf parsedDate now < 0 then
      if hoursDiff = 1 then "1 hour ago" else toString hoursDiff ++ " hours ago"
    else
      if hoursDiff = 1 then "In 1 hour" else "In " ++ toString hoursDiff ++ " hours"

/-- src/main.ts lines 254-286: the day/week/month/year branch of
formatDateAsHumanReadable, keyed entirely on diffDays. -/
def dayTier (diffDays : ℤ) : String :=
  let absDiffDays := |diffDays|
  if diffDays = 0 then "Today"
  else if diffDays = 1 then "Tomorrow"
  else if diffDays = -1 then "Yesterday"
  else if 1 < diffDays ∧ diffDays ≤ 7 then "In " ++ toString diffDays ++ " days"
  else if diffDays < -1 ∧ -7 ≤ diffDays then toString absDiffDays ++ " days ago"
  else if 7 < diffDays ∧ diffDays ≤ 14 then "Next week"
  else if diffDays < -7 ∧ -14 ≤ diffDays then "Last week"
  else if 14 < diffDays ∧ diffDays ≤ 30 then
    "In " ++ toString (jsCeil ((diffDays : ℚ) / 7)) ++ " weeks"
  else if diffDays < -14 ∧ -30 ≤ diffDays then
    toString (jsCeil ((absDiffDays : ℚ) / 7)) ++ " weeks ago"
  else if 30 < diffDays ∧ diffDays ≤ 365 then
    let months := jsCeil ((diffDays : ℚ) / 30)
    if months = 1 then "Next month" else "In " ++ toString months ++ " months"
  else if diffDays < -30 ∧ -365 ≤ diffDays then
    let months := jsCeil ((absDiffDays : ℚ) / 30)
    if months = 1 then "Last month" else toString months ++ " months ago"
  else if 365 < diffDays then
    let years := jsCeil ((diffDays : ℚ) / 365)
    if years = 1 then "Next year" else "In " ++ toString years ++ " years"
  else
    let years := jsCeil ((absDiffDays : ℚ) / 365)
    if years = 1 then "Last year" else toString years ++ " years ago"

/-- src/main.ts lines 215-288: the body of formatDateAsHumanReadable
after a successful parse, with now passed explicitly (the source samples
now = new Date() at the start of each call). -/
def formatRel (parsedDate now : ℤ) : String :=
  if hasTimeComponent parsedDate ∧ |diffHoursOf parsedDate now| < 24 then
    minuteHourTier parsedDate now
  else
    dayTier (diffDaysOf parsedDate now)

/-!
## The pattern compiler (src/main.ts lines 184-207)

createDateRegex builds the regular expression

  (Mon|Tue|Wed|Thu|Fri|Sat|Sun)\s+(Jan|...|Dec)\s+(\d{1,2})\s+(\d{4})(?:\s+(\d{1,2}):(\d{2}))?

and createBracketedDateRegex wraps its source in literal square brackets:
\[\[(...)\]\].  Below is a direct recursive-descent model of this regex
with JavaScript backtracking semantics.  For this particular pattern
every greedy choice except the optional time group is forced:
* after each \s+ the next required token starts with a letter, a digit or
  a bracket, never with whitespace, so consuming the maximal whitespace
  run is the only branch that can succeed;
* \d{1,2} is followed by \s+ or by a colon; after taking one digit fewer
  the next character is a digit, which neither \s nor a colon accepts, so
  the maximal digit run (capped at 2) is the only branch that can
  succeed;
* \d{4} and \d{2} are exact-width.
The one real backtracking point, the optional time group followed by the
closing brackets in the bracketed variant, is modelled by ordered choice:
first try time-then-brackets, then brackets alone.
-/

/-- The seven day-name alternatives of createDateRegex. -/
def dayNames : List String := ["Mon", "Tue", "Wed", "Thu", "Fri", "Sat", "Sun"]

/-- The twelve month-name alternatives of createDateRegex. -/
def monthNames : List String :=
  ["Jan", "Feb", "Mar", "Apr", "May", "Jun", "Jul", "Aug", "Sep", "Oct", "Nov", "Dec"]

/-- The character class \d of JavaScript regular expressions. -/
def isDigitChar (c : Char) : Bool := decide ('0' ≤ c ∧ c ≤ '9')

/-- The character class \s of JavaScript regular expressions, restricted
to the ASCII whitespace characters and no-break space (the exotic
Unicode space characters never occur in the texts considered here). -/
def isWsChar (c : Char) : Bool :=
  c == ' ' || c == '\t' || c == '\n' || c == '\r' || c == '\x0b' || c == '\x0c' || c == ' '

/-- Consume an exact literal; returns the remaining suffix. -/
def matchLit : List Char → List Char → Option (List Char)
  | [], s => some s
  | _ :: _, [] => none
  | c :: cs, d :: ds => if c = d then matchLit cs ds else none

/-- A regex alternation of string literals, tried left to right; returns
the alternative that matched and the remaining suffix. -/
def matchAlt : List String → List Char → Option (String × List Char)
  | [], _ => none
  | a :: as, s =>
    match matchLit a.toList s with
    | some rest => some (a, rest)
    | none => matchAlt as s

/-- Greedily drop leading whitespace. -/
def dropWsGreedy : List Char → List Char
  | [] => []
  | c :: rest => if isWsChar c then dropWsGreedy rest else c :: rest

/-- The regex \s+: at least one whitespace character, consumed greedily
(forced, see the section comment). -/
def matchWsPlus : List Char → Option (List Char)
  | [] => none
  | c :: rest => if isWsChar c then some (dropWsGreedy rest) else none

/-- The regex (\d{1,2}): one or two digits, preferring two (forced, see
the section comment); returns the captured digits and the suffix. -/
def takeDigits1or2 : List Char → Option (List Char × List Char)
  | [] => none
  | c1 :: rest1 =>
    if isDigitChar c1 then
      match rest1 with
      | c2 :: rest2 =>
        if isDigitChar c2 then some ([c1, c2], rest2) else some ([c1], rest1)
      | [] => some ([c1], [])
    else none

/-- The regex (\d{2}): exactly two digits. -/
def takeDigits2 : List Char → Option (List Char × List Char)
  | c1 :: c2 :: rest =>
    if isDigitChar c1 && isDigitChar c2 then some ([c1, c2], rest) else none
  | _ => none

/-- The regex (\d{4}): exactly four digits. -/
def takeDigits4 : List Char → Option (List Char × List Char)
  | c1 :: c2 :: c3 :: c4 :: rest =>
    if isDigitChar c1 && isDigitChar c2 && isDigitChar c3 && isDigitChar c4 then
      some ([c1, c2, c3, c4], rest)
    else none
  | _ => none

/-- The captures of the mandatory part of the date pattern: day name,
month name, day-of-month digits, year digits. -/
structure CoreCaps where
  dayName : String
  monthName : String
  dayDigits : List Char
  yearDigits : List Char
deriving DecidableEq

/-- The mandatory part of the date pattern:
dayName \s+ monthName \s+ \d{1,2} \s+ \d{4}. -/
def matchCore (s : List Char) : Option (CoreCaps × List Char) :=
  match matchAlt dayNames s with
  | none => none
  | some (dn, s1) =>
    match matchWsPlus s1 with
    | none => none
    | some s2 =>
      match matchAlt monthNames s2 with
      | none => none
      | some (mn, s3) =>
        match matchWsPlus s3 with
        | none => none
        | some s4 =>
          match takeDigits1or2 s4 with
          | none => none
          | some (dds, s5) =>
            match matchWsPlus s5 with
            | none => none
            | some s6 =>
              match takeDigits4 s6 with
              | none => none
              | some (yds, s7) => some (⟨dn, mn, dds, yds⟩, s7)

/-- The optional time group body: \s+ (\d{1,2}) : (\d{2}); returns the
hour and minute captures and the suffix. -/
def matchTime (s : List Char) : Option ((List Char × List Char) × List Char) :=
  match matchWsPlus s with
  | none => none
  | some s1 =>
    match takeDigits1or2 s1 with
    | none => none
    | some (hh, s2) =>
      match matchLit [':'] s2 with
      | none => none
      | some s3 =>
        match takeDigits2 s3 with
        | none => none
        | some (mm, s4) => some ((hh, mm), s4)

/-- The full captures of one date occurrence. -/
structure DateCaps where
  core : CoreCaps
  time : Option (List Char × List Char)
deriving DecidableEq

/-- The plain date pattern of createDateRegex, attempted at the head of
the given suffix: the mandatory part followed by the optional time group
(the time group is greedy and the pattern ends after it, so ordered
choice with the empty alternative is exact). -/
def matchPlainAt (s : List Char) : Option (DateCaps × List Char) :=
  match matchCore s with
  | none => none
  | some (c, s1) =>
    match matchTime s1 with
    | some (t, s2) => some (⟨c, some t⟩, s2)
    | none => some (⟨c, none⟩, s1)

/-- The bracketed pattern of createBracketedDateRegex, attempted at the
head of the given suffix: literal brackets around the date pattern, with
the backtracking over the optional time group modelled by ordered
choice (time then closing brackets, otherwise closing brackets at the
point before the time group). -/
def matchBracketAt (s : List Char) : Option (DateCaps × List Char) :=
  match matchLit ['[', '['] s with
  | none => none
  | some s1 =>
    match matchCore s1 with
    | none => none
    | some (c, s2) =>
      match matchTime s2 with
      | some (t, s3) =>
        match matchLit [']', ']'] s3 with
        | some s4 => some (⟨c, some t⟩, s4)
        | none =>
          match matchLit [']', ']'] s2 with
          | some s4 => some (⟨c, none⟩, s4)
          | none => none
      | none =>
        match matchLit [']', ']'] s2 with
        | some s4 => some (⟨c, none⟩, s4)
        | none => none

/-- One pass of RegExp.prototype.exec with the g flag: starting from
offset i, slide right until the pattern matches, emit the match (offset,
length, captures) and continue after it.  The fuel argument dominates
the number of steps; with fuel = length of the text it is exact, because
every successful match consumes at least one character. -/
def scanAux (matchAt : List Char → Option (DateCaps × List Char)) :
    Nat → Nat → List Char → List (Nat × Nat × DateCaps)
  | 0, _, _ => []
  | _ + 1, _, [] => []
  | fuel + 1, i, c :: rest =>
    match matchAt (c :: rest) with
    | some (caps, r) =>
      let len := (c :: rest).length - r.length
      (i, len, caps) :: scanAux matchAt fuel (i + len) ((c :: rest).drop len)
    | none => scanAux matchAt fuel (i + 1) rest

/-- All matches of the plain date regex in a text, in order. -/
def scanPlain (t : List Char) : List (Nat × Nat × DateCaps) :=
  scanAux matchPlainAt t.length 0 t

/-- All matches of the bracketed date regex in a text, in order. -/
def scanBracketed (t : List Char) : List (Nat × Nat × DateCaps) :=
  scanAux matchBracketAt t.length 0 t

/-!
## The date parser (src/main.ts lines 291-323)
-/

/-- parseInt(s, 10) on a string of decimal digits. -/
def parseIntDigits (s : List Char) : ℤ :=
  Int.ofNat (s.foldl (fun a c => 10 * a + (c.toNat - 48)) 0)

/-- src/main.ts lines 291-323, parseDateString: match the date pattern
anywhere in the string (String.prototype.match without the g flag finds
the first match), look the captured month name up in the fixed 12-name
list (indexOf; -1 is modelled by findIdx? returning none), default the
time captures to midnight, and build the Date.  Returns none instead of
throwing on any non-conforming input. -/
def parseDateString (s : String) : Option ℤ :=
  match (scanPlain s.toList).head? with
  | none => none
  | some (_, _, caps) =>
    match monthNames.findIdx? (fun m => m = caps.core.monthName) with
    | none => none
    | some monthIndex =>
      let day := parseIntDigits caps.core.dayDigits
      let year := parseIntDigits caps.core.yearDigits
      let hour := match caps.time with
        | some (hh, _) => parseIntDigits hh
        | none => 0
      let minute := match caps.time with
        | some (_, mm) => parseIntDigits mm
        | none => 0
      some (jsDate year (Int.ofNat monthIndex) day hour minute)

/-- src/main.ts lines 209-289, formatDateAsHumanReadable with the
wall-clock sample now = new Date() passed explicitly: parse, then format
relative to now; null (none) propagates from the parser. -/
def formatDateAsHumanReadable (dateString : String) (now : ℤ) : Option String :=
  match parseDateString dateString with
  | none => none
  | some parsedDate => some (formatRel parsedDate now)

/-!
## The occurrence scanner and overlay reconciliation
(src/main.ts lines 85-176, buildDecorations)

The source pushes, for every surviving occurrence, a widget decoration
at the start offset and a hiding mark over the span, then sorts the
flat array by start offset.  The model combines the pair into a single
replacement directive carrying the span, the displayed phrase, the
original text and the bracketed/plain flag, which is the granularity the
claims speak about; both decorations of a pair share the same start
offset, so sorting directives by start offset models the same order.

The source reads the wall clock once per call of
formatDateAsHumanReadable (new Date() on line 215), and that function is
called once per bracketed match and once per surviving plain match.
The model therefore threads an explicit clock: a stream of time samples,
of which the k-th formatting call receives the k-th.
-/

/-- One replacement directive: hide [dFrom, dTo), show display, keep
original for the hover tooltip; isLink marks bracketed occurrences. -/
structure Directive where
  dFrom : Nat
  dTo : Nat
  display : String
  original : String
  isLink : Bool
deriving DecidableEq

/-- The comparator of the final sort (line 175: sort by a.from - b.from),
as a relation. -/
def dirLE (a b : Directive) : Prop := a.dFrom ≤ b.dFrom

instance : DecidableRel dirLE := fun a b => inferInstanceAs (Decidable (a.dFrom ≤ b.dFrom))

instance : IsTotal Directive dirLE := ⟨fun a b => Nat.le_total a.dFrom b.dFrom⟩

instance : IsTrans Directive dirLE := ⟨fun _ _ _ => Nat.le_trans⟩

/-- The matched substring of a match at offset i of length len. -/
def matchString (t : List Char) (i len : Nat) : String := ((t.drop i).take len).asString

/-- The first capture group of a bracketed match: the date string inside
the double brackets. -/
def innerString (t : List Char) (i len : Nat) : String :=
  ((t.drop (i + 2)).take (len - 4)).asString

/-- The overlap test of src/main.ts lines 144-148: the plain span
[i, i+len) overlaps the recorded range [rf, rt) when the start falls
inside it, the end falls inside it, or the span contains it. -/
def overlapsRange (i len rf rt : Nat) : Bool :=
  (decide (rf ≤ i) && decide (i < rt)) ||
  (decide (rf < i + len) && decide (i + len ≤ rt)) ||
  (decide (i ≤ rf) && decide (rt ≤ i + len))

/-- src/main.ts lines 96-126: the first loop over bracketed matches.
Every bracketed match is formatted (the k-th formatting call of the scan
receives the k-th clock sample; the argument of the formatting call is
the first capture group, the date string inside the brackets) and, when
formatting succeeded and the cursor is outside the inclusive span, a
directive is emitted. -/
def bracketDirs (t : List Char) (cursor : Nat) (clock : Nat → ℤ) : List Directive :=
  (scanBracketed t).enum.filterMap fun (k, i, len, _) =>
    match formatDateAsHumanReadable (innerString t i len) (clock k) with
    | some humanReadable =>
      if i ≤ cursor ∧ cursor ≤ i + len then none
      else some ⟨i, i + len, humanReadable, matchString t i len, true⟩
    | none => none

/-- src/main.ts lines 129-135: the spans of all bracketed matches,
recorded to shadow overlapping plain matches. -/
def processedRangesOf (t : List Char) : List (Nat × Nat) :=
  (scanBracketed t).map fun (i, len, _) => (i, i + len)

/-- src/main.ts lines 137-150: the plain matches that overlap no
bracketed span and therefore survive. -/
def plainKept (t : List Char) : List (Nat × Nat × DateCaps) :=
  (scanPlain t).filter fun (i, len, _) =>
    ! (processedRangesOf t).any fun (rf, rt) => overlapsRange i len rf rt

/-- src/main.ts lines 150-173: the loop over surviving plain matches;
the k-th surviving plain match is formatted with the clock sample
following the ones consumed by the bracketed pass. -/
def plainDirs (t : List Char) (cursor : Nat) (clock : Nat → ℤ) : List Directive :=
  (plainKept t).enum.filterMap fun (k, i, len, _) =>
    match formatDateAsHumanReadable (matchString t i len) (clock ((scanBracketed t).length + k)) with
    | some humanReadable =>
      if i ≤ cursor ∧ cursor ≤ i + len then none
      else some ⟨i, i + len, humanReadable, matchString t i len, false⟩
    | none => none

/-- src/main.ts lines 85-176, buildDecorations, with the document text,
the selection head (cursor) and the wall clock passed explicitly:
bracketed directives, then surviving plain directives, sorted by start
offset (line 175). -/
def buildDecorations (text : String) (cursor : Nat) (clock : Nat → ℤ) : List Directive :=
  List.insertionSort dirLE
    (bracketDirs text.toList cursor clock ++ plainDirs text.toList cursor clock)

/-- Modelled from the spec: the same scan with a single time value used
for every formatting call, i.e. what buildDecorations computes when now
is sampled once per scan pass. -/
def buildDecorationsConst (text : String) (cursor : Nat) (now : ℤ) : List Directive :=
  List.insertionSort dirLE
    (bracketDirs text.toList cursor (fun _ => now) ++
      plainDirs text.toList cursor (fun _ => now))

/-!
## Helper lemmas
-/

theorem jsRound_intCast (k : ℤ) : jsRound (k : ℚ) = k := by
  rw [jsRound_eq, add_comm, Int.floor_add_int]
  norm_num

theorem roundHalfAwayFromZero_intCast (k : ℤ) : roundHalfAwayFromZero (k : ℚ) = k := by
  unfold roundHalfAwayFromZero
  split
  · rw [add_comm, Int.floor_add_int]; norm_num
  · rw [show -(k : ℚ) = ((-k : ℤ) : ℚ) by push_cast; ring, add_comm, Int.floor_add_int]
    norm_num

theorem midnight_quot (p n : ℤ) :
    ((truncToMidnight p - truncToMidnight n : ℤ) : ℚ) / (1000 * 60 * 60 * 24) =
      ((p / 86400000 - n / 86400000 : ℤ) : ℚ) := by
  unfold truncToMidnight
  rw [div_eq_iff (by norm_num)]
  push_cast
  ring

theorem diffDaysOf_eq_div (p n : ℤ) : diffDaysOf p n = p / 86400000 - n / 86400000 := by
  unfold diffDaysOf
  rw [midnight_quot, jsRound_intCast]

theorem hasTimeComponent_false_iff (p : ℤ) :
    hasTimeComponent p = false ↔ p % 86400000 < 60000 := by
  unfold hasTimeComponent getHours getMinutes
  constructor
  · intro h
    simp only [Bool.or_eq_false_iff, bne_eq_false_iff_eq] at h
    omega
  · intro h
    simp only [Bool.or_eq_false_iff, bne_eq_false_iff_eq]
    omega

/-!
## Claim theorems
-/

/-- C1, counterexample: with now fixed at Fri Aug 29 2025 14:50 local
time, the input "Fri Aug 29 2025 14:55" is exactly 5 minutes away, which
is not strictly below the 5-minute cutoff, so the formatter does not
return "Now"; and "Fri Aug 29 2025 12:00" is 2 hours 50 minutes in the
past, which rounds to 3 hours, so the formatter does not return
"2 hours ago". -/
theorem C1_counterexample :
    formatDateAsHumanReadable "Fri Aug 29 2025 14:55" (jsDate 2025 7 29 14 50) ≠ some "Now" ∧
    formatDateAsHumanReadable "Fri Aug 29 2025 12:00" (jsDate 2025 7 29 14 50) ≠ some "2 hours ago" := by
  decide

/-- C1, amended: with now fixed at Fri Aug 29 2025 14:50 local time,
formatDateAsHumanReadable maps "Fri Aug 29 2025 14:55" to "In 5 mins",
"Fri Aug 29 2025 12:00" to "3 hours ago", "Thu Aug 28 2025" to
"Yesterday", and the date inside "[[Sun Aug 31 2025]]" to "In 2 days". -/
theorem C1_amended_examples :
    formatDateAsHumanReadable "Fri Aug 29 2025 14:55" (jsDate 2025 7 29 14 50) = some "In 5 mins" ∧
    formatDateAsHumanReadable "Fri Aug 29 2025 12:00" (jsDate 2025 7 29 14 50) = some "3 hours ago" ∧
    formatDateAsHumanReadable "Thu Aug 28 2025" (jsDate 2025 7 29 14 50) = some "Yesterday" ∧
    formatDateAsHumanReadable "[[Sun Aug 31 2025]]" (jsDate 2025 7 29 14 50) = some "In 2 days" := by
  decide

/-- C2: for every parsed date and every now, diffDays is the
round-half-away-from-zero rounding of the difference of the two dates
truncated to local midnight, divided into whole days, which equals the
difference of the civil day numbers; and it is not the raw hour-based
difference, which disagrees with it on the witness pair (23:59 on the
epoch day versus the epoch midnight). -/
theorem C2_diffDays_midnight_rounding :
    (∀ p n : ℤ,
      diffDaysOf p n =
        roundHalfAwayFromZero
          (((truncToMidnight p - truncToMidnight n : ℤ) : ℚ) / (1000 * 60 * 60 * 24)) ∧
      diffDaysOf p n = p / 86400000 - n / 86400000) ∧
    diffDaysOf 86340000 0 ≠ jsRound (diffHoursOf 86340000 0 / 24) := by
  refine ⟨fun p n => ⟨?_, diffDaysOf_eq_div p n⟩, by decide⟩
  rw [diffDaysOf_eq_div, midnight_quot, roundHalfAwayFromZero_intCast]

/-- C3, counterexample: a midnight-only date 3 hours in the future (the
parsed date is Sat Aug 30 2025 00:00, now is Fri Aug 29 2025 21:00) has
no time component, so the day tier applies, but its day difference is 1
and the formatter returns "Tomorrow", not "Today". -/
theorem C3_counterexample :
    hasTimeComponent (jsDate 2025 7 30 0 0) = false ∧
    jsDate 2025 7 30 0 0 - jsDate 2025 7 29 21 0 = 3 * 3600000 ∧
    formatRel (jsDate 2025 7 30 0 0) (jsDate 2025 7 29 21 0) = "Tomorrow" := by
  decide

/-- C3, amended: the minute/hour precision tier is used if and only if
the parsed date has a time component and its absolute hour distance is
below 24; otherwise the day tier is used; in particular a midnight-only
date 3 hours in the future is formatted by the day tier as "Tomorrow"
(its civil day is the day after the civil day of now), never as an hour
phrase. -/
theorem C3_amended_tier_selection : ∀ p n : ℤ,
    (hasTimeComponent p = true ∧ |diffHoursOf p n| < 24 →
      formatRel p n = minuteHourTier p n) ∧
    ((hasTimeComponent p = false ∨ 24 ≤ |diffHoursOf p n|) →
      formatRel p n = dayTier (diffDaysOf p n)) ∧
    (hasTimeComponent p = false ∧ p - n = 3 * 3600000 → formatRel p n = "Tomorrow") := by
  intro p n
  refine ⟨fun h => ?_, fun h => ?_, fun h => ?_⟩
  · unfold formatRel
    rw [if_pos ?_]
    rw [h.1]
    exact ⟨rfl, h.2⟩
  · unfold formatRel
    rw [if_neg ?_]
    rcases h with h | h
    · rintro ⟨h1, _⟩
      rw [h] at h1
      cases h1
    · rintro ⟨_, h2⟩
      exact absurd h2 (not_lt.mpr h)
  · have hmid := (hasTimeComponent_false_iff p).mp h.1
    have hday : diffDaysOf p n = 1 := by
      rw [diffDaysOf_eq_div]
      omega
    unfold formatRel
    rw [if_neg ?_, hday]
    · decide
    · rintro ⟨h1, _⟩
      rw [h.1] at h1
      cases h1

/-- C3, witness for the amended theorem, applied at the concrete
midnight-plus-3-hours pair and at a timed pair inside the hour window. -/
theorem C3_amended_tier_selection_witness :
    formatRel (jsDate 2025 7 30 0 0) (jsDate 2025 7 29 21 0) = "Tomorrow" ∧
    formatRel (jsDate 2025 7 29 12 0) (jsDate 2025 7 29 14 50) =
      minuteHourTier (jsDate 2025 7 29 12 0) (jsDate 2025 7 29 14 50) := by
  constructor
  · exact (C3_amended_tier_selection (jsDate 2025 7 30 0 0) (jsDate 2025 7 29 21 0)).2.2
      ⟨by decide, by decide⟩
  · exact (C3_amended_tier_selection (jsDate 2025 7 29 12 0) (jsDate 2025 7 29 14 50)).1
      ⟨by decide, by decide⟩

/-- C5, counterexample: on the text "Fri Aug 29 20255", whose year
position holds a 5-digit run, the plain matcher reports the single
occurrence starting at offset 0 of length 15, consuming only the first
4 digits of the run and leaving the stray digit 5 at offset 15: the
year sub-pattern is followed by an optional time group, not by a
required separator. -/
theorem C5_counterexample :
    (scanPlain "Fri Aug 29 20255".toList).map (fun m => (m.1, m.2.1)) = [(0, 15)] ∧
    "Fri Aug 29 20255".toList.drop 15 = ['5'] := by
  decide

/-- C5, amended: the compiled plain matcher can partially match a
truncated numeric token in the year position: on "Fri Aug 29 20255" it
reports exactly one occurrence, the substring "Fri Aug 29 2025" with
year capture 2025, leaving the fifth digit unconsumed, because the
4-digit year sub-pattern is followed only by an optional time group. -/
theorem C5_amended_partial_year_match :
    scanPlain "Fri Aug 29 20255".toList =
      [(0, 15, ⟨⟨"Fri", "Aug", ['2', '9'], ['2', '0', '2', '5']⟩, none⟩)] ∧
    matchString "Fri Aug 29 20255".toList 0 15 = "Fri Aug 29 2025" := by
  decide

/-- C6: day-tier bucketing: day difference 0 is "Today", 1 is
"Tomorrow", -1 is "Yesterday", (1,7] is "In N days" (so 7 gives
"In 7 days"), [-7,-1) is "N days ago", (7,14] is "Next week" (so 8
gives "Next week"), and [-14,-7) is "Last week". -/
theorem C6_day_tier_buckets : ∀ d : ℤ,
    (d = 0 → dayTier d = "Today") ∧
    (d = 1 → dayTier d = "Tomorrow") ∧
    (d = -1 → dayTier d = "Yesterday") ∧
    (1 < d ∧ d ≤ 7 → dayTier d = "In " ++ toString d ++ " days") ∧
    (-7 ≤ d ∧ d < -1 → dayTier d = toString |d| ++ " days ago") ∧
    (7 < d ∧ d ≤ 14 → dayTier d = "Next week") ∧
    (-14 ≤ d ∧ d < -7 → dayTier d = "Last week") := by
  intro d
  refine ⟨fun h => ?_, fun h => ?_, fun h => ?_, fun h => ?_, fun h => ?_, fun h => ?_,
    fun h => ?_⟩
  · subst h; decide
  · subst h; decide
  · subst h; decide
  · simp only [dayTier]
    repeat rw [if_neg (by omega)]
    rw [if_pos (by omega)]
  · simp only [dayTier]
    repeat rw [if_neg (by omega)]
    rw [if_pos (by omega)]
  · simp only [dayTier]
    repeat rw [if_neg (by omega)]
    rw [if_pos (by omega)]
  · simp only [dayTier]
    repeat rw [if_neg (by omega)]
    rw [if_pos (by omega)]

/-- C6, witness at the bucket boundaries 7 and 8 and at -3. -/
theorem C6_day_tier_buckets_witness :
    dayTier 7 = "In " ++ toString (7 : ℤ) ++ " days" ∧
    dayTier 8 = "Next week" ∧
    dayTier (-3) = toString |(-3 : ℤ)| ++ " days ago" := by
  refine ⟨?_, ?_, ?_⟩
  · exact (C6_day_tier_buckets 7).2.2.2.1 (by decide)
  · exact (C6_day_tier_buckets 8).2.2.2.2.2.1 (by decide)
  · exact (C6_day_tier_buckets (-3)).2.2.2.2.1 (by decide)

/-- C7: month and year bucketing uses the flat divisors 30 and 365 with
a true ceiling: on (30,365] the month count is the ceiling of d/30 and
the output is "Next month" when that count is 1, otherwise
"In N months"; mirrored on [-365,-30) with "Last month"/"N months ago";
past 365 days the year count is the ceiling of d/365 with
"Next year"/"In N years" and mirrored for the past. -/
theorem C7_month_year_buckets : ∀ d : ℤ,
    (30 < d ∧ d ≤ 365 →
      dayTier d = if ⌈(d : ℚ) / 30⌉ = 1 then "Next month"
        else "In " ++ toString ⌈(d : ℚ) / 30⌉ ++ " months") ∧
    (-365 ≤ d ∧ d < -30 →
      dayTier d = if ⌈(|d| : ℚ) / 30⌉ = 1 then "Last month"
        else toString ⌈(|d| : ℚ) / 30⌉ ++ " months ago") ∧
    (365 < d →
      dayTier d = if ⌈(d : ℚ) / 365⌉ = 1 then "Next year"
        else "In " ++ toString ⌈(d : ℚ) / 365⌉ ++ " years") ∧
    (d < -365 →
      dayTier d = if ⌈(|d| : ℚ) / 365⌉ = 1 then "Last year"
        else toString ⌈(|d| : ℚ) / 365⌉ ++ " years ago") := by
  intro d
  refine ⟨fun h => ?_, fun h => ?_, fun h => ?_, fun h => ?_⟩
  · simp only [dayTier, jsCeil_eq]
    repeat rw [if_neg (by omega)]
    rw [if_pos (by omega)]
  · simp only [dayTier, jsCeil_eq]
    repeat rw [if_neg (by omega)]
    rw [if_pos (by omega)]
    simp only [Int.cast_abs]
  · simp only [dayTier, jsCeil_eq]
    repeat rw [if_neg (by omega)]
    rw [if_pos (by omega)]
  · simp only [dayTier, jsCeil_eq]
    repeat rw [if_neg (by omega)]
    simp only [Int.cast_abs]

/-- C7, witness at 45 days (2 months) and 400 days (2 years). -/
theorem C7_month_year_buckets_witness :
    (dayTier 45 = if ⌈((45 : ℤ) : ℚ) / 30⌉ = 1 then "Next month"
      else "In " ++ toString ⌈((45 : ℤ) : ℚ) / 30⌉ ++ " months") ∧
    (dayTier 400 = if ⌈((400 : ℤ) : ℚ) / 365⌉ = 1 then "Next year"
      else "In " ++ toString ⌈((400 : ℤ) : ℚ) / 365⌉ ++ " years") :=
  ⟨(C7_month_year_buckets 45).1 (by decide),
   (C7_month_year_buckets 400).2.2.1 (by decide)⟩

theorem matchAlt_mem :
    ∀ (alts : List String) (s : List Char) (a : String) (r : List Char),
      matchAlt alts s = some (a, r) → a ∈ alts := by
  intro alts
  induction alts with
  | nil => intro s a r h; cases h
  | cons x xs ih =>
    intro s a r h
    unfold matchAlt at h
    cases hm : matchLit x.toList s with
    | some rest =>
      rw [hm] at h
      cases h
      exact List.mem_cons_self x xs
    | none =>
      rw [hm] at h
      exact List.mem_cons_of_mem x (ih s a r h)

theorem matchCore_month_mem (s : List Char) (v : CoreCaps × List Char)
    (h : matchCore s = some v) : v.1.monthName ∈ monthNames := by
  unfold matchCore at h
  cases h1 : matchAlt dayNames s with
  | none => simp only [h1] at h; exact Option.noConfusion h
  | some v1 =>
    obtain ⟨dn, s1⟩ := v1
    simp only [h1] at h
    cases h2 : matchWsPlus s1 with
    | none => simp only [h2] at h; exact Option.noConfusion h
    | some s2 =>
      simp only [h2] at h
      cases h3 : matchAlt monthNames s2 with
      | none => simp only [h3] at h; exact Option.noConfusion h
      | some v3 =>
        obtain ⟨mn, s3⟩ := v3
        simp only [h3] at h
        cases h4 : matchWsPlus s3 with
        | none => simp only [h4] at h; exact Option.noConfusion h
        | some s4 =>
          simp only [h4] at h
          cases h5 : takeDigits1or2 s4 with
          | none => simp only [h5] at h; exact Option.noConfusion h
          | some v5 =>
            obtain ⟨dds, s5⟩ := v5
            simp only [h5] at h
            cases h6 : matchWsPlus s5 with
            | none => simp only [h6] at h; exact Option.noConfusion h
            | some s6 =>
              simp only [h6] at h
              cases h7 : takeDigits4 s6 with
              | none => simp only [h7] at h; exact Option.noConfusion h
              | some v7 =>
                obtain ⟨yds, s7⟩ := v7
                simp only [h7] at h
                cases h
                exact matchAlt_mem monthNames s2 mn s3 h3

theorem matchPlainAt_month_mem (s : List Char) (v : DateCaps × List Char)
    (h : matchPlainAt s = some v) : v.1.core.monthName ∈ monthNames := by
  unfold matchPlainAt at h
  cases h1 : matchCore s with
  | none => simp only [h1] at h; exact Option.noConfusion h
  | some v1 =>
    obtain ⟨cc, s1⟩ := v1
    simp only [h1] at h
    cases h2 : matchTime s1 with
    | none =>
      simp only [h2] at h
      cases h
      exact matchCore_month_mem s (cc, s1) h1
    | some v2 =>
      obtain ⟨t, s2⟩ := v2
      simp only [h2] at h
      cases h
      exact matchCore_month_mem s (cc, s1) h1

theorem scanAux_caps (matchAt : List Char → Option (DateCaps × List Char))
    (P : DateCaps → Prop)
    (hP : ∀ s v, matchAt s = some v → P v.1) :
    ∀ (fuel i : Nat) (s : List Char) (e : Nat × Nat × DateCaps),
      e ∈ scanAux matchAt fuel i s → P e.2.2 := by
  intro fuel
  induction fuel with
  | zero => intro i s e he; cases he
  | succ f ih =>
    intro i s e he
    cases s with
    | nil => cases he
    | cons c rest =>
      unfold scanAux at he
      cases hm : matchAt (c :: rest) with
      | some v =>
        obtain ⟨caps, r⟩ := v
        simp only [hm] at he
        cases he with
        | head => exact hP (c :: rest) (caps, r) hm
        | tail _ ht => exact ih _ _ e ht
      | none =>
        simp only [hm] at he
        exact ih _ _ e he

/-- C8: the parser returns none exactly when the plain date grammar does
not match anywhere in the input (the month-name lookup can never fail
because the grammar only matches the twelve fixed names, so the
month-outside-the-set case is subsumed); being a total function it never
throws; and it does not validate day-of-month: the grammatically
well-formed but calendar-invalid "Fri Feb 30 2025" is accepted and its
Date construction rolls over to March 2 2025. -/
theorem C8_parser_none_iff_and_rollover :
    (∀ s : String, parseDateString s = none ↔ scanPlain s.toList = []) ∧
    parseDateString "Fri Feb 30 2025" = some (jsDate 2025 1 30 0 0) ∧
    jsDate 2025 1 30 0 0 = jsDate 2025 2 2 0 0 := by
  refine ⟨fun s => ?_, by decide, by decide⟩
  cases hscan : scanPlain s.toList with
  | nil =>
    constructor
    · intro _; rfl
    · intro _
      unfold parseDateString
      rw [hscan]
      rfl
  | cons e rest =>
    obtain ⟨i, len, caps⟩ := e
    have hmem : caps.core.monthName ∈ monthNames := by
      have he : (i, len, caps) ∈ scanPlain s.toList := by
        rw [hscan]; exact List.mem_cons_self _ _
      exact scanAux_caps matchPlainAt (fun c => c.core.monthName ∈ monthNames)
        (fun s v hv => matchPlainAt_month_mem s v hv) s.toList.length 0 s.toList
        (i, len, caps) he
    constructor
    · intro hnone
      exfalso
      unfold parseDateString at hnone
      rw [hscan] at hnone
      simp only [List.head?_cons] at hnone
      cases hidx : monthNames.findIdx? (fun m => m = caps.core.monthName) with
      | none =>
        simp only [monthNames, List.mem_cons, List.not_mem_nil, or_false] at hmem
        rcases hmem with h | h | h | h | h | h | h | h | h | h | h | h <;>
          (rw [h] at hidx; exact absurd hidx (by decide))
      | some k =>
        rw [hidx] at hnone
        cases hnone
    · intro hsc
      exact List.noConfusion hsc

/-- C4, counterexample: one scan over a buffer holding the same date
string twice, with a clock that advances past a day boundary between the
two per-occurrence samples of now, emits two directives with identical
original text but different display text, so occurrences within one
scan do not all see the same now. -/
theorem C4_counterexample :
    buildDecorations "Thu Aug 28 2025 Thu Aug 28 2025" 100
        (fun k => if k = 0 then jsDate 2025 7 29 0 0 else jsDate 2025 7 28 0 0) =
      [⟨0, 15, "Yesterday", "Thu Aug 28 2025", false⟩,
       ⟨16, 31, "Today", "Thu Aug 28 2025", false⟩] ∧
    ("Yesterday" : String) ≠ "Today" := by
  decide

/-- C4, amended: formatting is a pure function of the parsed date and
the per-call time sample, but now is sampled once per formatting call
(once per occurrence), not once per scan pass; whenever all samples of a
scan happen to coincide, the scan output is the pure function
buildDecorationsConst of the text, the cursor and that single time
value. -/
theorem C4_amended_per_call_clock :
    ∀ (text : String) (cursor : Nat) (clock : Nat → ℤ) (now : ℤ),
      (∀ k, clock k = now) →
      buildDecorations text cursor clock = buildDecorationsConst text cursor now := by
  intro text cursor clock now h
  have hc : clock = fun _ => now := funext h
  subst hc
  rfl

/-- C4, witness for the amended theorem at a constant clock. -/
theorem C4_amended_per_call_clock_witness :
    buildDecorations "Thu Aug 28 2025" 100 (fun _ => jsDate 2025 7 29 0 0) =
      buildDecorationsConst "Thu Aug 28 2025" 100 (jsDate 2025 7 29 0 0) :=
  C4_amended_per_call_clock "Thu Aug 28 2025" 100 (fun _ => jsDate 2025 7 29 0 0)
    (jsDate 2025 7 29 0 0) (fun _ => rfl)

theorem toDigitsCore_head : ∀ (f n : ℕ) (acc : List Char), 0 < f →
    ∃ j rest, j < 10 ∧ Nat.toDigitsCore 10 f n acc = Nat.digitChar j :: rest := by
  intro f
  induction f with
  | zero => intro n acc h; exact absurd h (lt_irrefl 0)
  | succ f2 ih =>
    intro n acc _
    simp only [Nat.toDigitsCore]
    by_cases h0 : n / 10 = 0
    · rw [if_pos h0]
      exact ⟨n % 10, acc, Nat.mod_lt n (by norm_num), rfl⟩
    · rw [if_neg h0]
      cases f2 with
      | zero => exact ⟨n % 10, acc, Nat.mod_lt n (by norm_num), rfl⟩
      | succ f3 =>
        exact ih (n / 10) (Nat.digitChar (n % 10) :: acc) (Nat.succ_pos f3)

/-- The decimal rendering of a nonnegative integer starts with a digit
character; this pins down the first character of every interpolated
number in the formatter output. -/
theorem intRepr_head (m : ℤ) (hm : 0 ≤ m) :
    ∃ j rest, j < 10 ∧ (toString m).data = Nat.digitChar j :: rest := by
  obtain ⟨k, rfl⟩ := Int.eq_ofNat_of_zero_le hm
  obtain ⟨j, rest, hj, he⟩ := toDigitsCore_head (k + 1) k [] (Nat.succ_pos k)
  exact ⟨j, rest, hj, he⟩

theorem digitChar_range (j : ℕ) (h : j < 10) :
    '0' ≤ Nat.digitChar j ∧ Nat.digitChar j ≤ '9' := by
  interval_cases j <;> exact ⟨by decide, by decide⟩

theorem strHead_append (a b : String) (c : Char) (h : a.data.head? = some c) :
    (a ++ b).data.head? = some c := by
  rw [String.data_append]
  cases hd : a.data with
  | nil => rw [hd] at h; exact Option.noConfusion h
  | cons x xs =>
    rw [hd] at h
    simp only [List.head?_cons] at h
    cases h
    rfl

theorem ne_of_heads (s t : String) (c d : Char) (hs : s.data.head? = some c)
    (ht : t.data.head? = some d) (hcd : c ≠ d) : s ≠ t := by
  intro he
  rw [he, ht] at hs
  injection hs with h
  exact hcd h.symm

theorem two_le_ceil_div (a : ℤ) (q : ℚ) (hq : 0 < q) (h : q < (a : ℚ)) :
    2 ≤ ⌈(a : ℚ) / q⌉ := by
  have h1 : (1 : ℚ) < (a : ℚ) / q := by
    rw [lt_div_iff₀ hq]
    linarith
  have h3 : (1 : ℤ) < ⌈(a : ℚ) / q⌉ := Int.lt_ceil.mpr (by exact_mod_cast h1)
  omega

theorem jsRound_nonneg (q : ℚ) (h : 0 ≤ q) : 0 ≤ jsRound q := by
  rw [jsRound_eq]
  exact Int.floor_nonneg.mpr (by linarith)

theorem jsCeil_nonneg (q : ℚ) (h : 0 ≤ q) : 0 ≤ jsCeil q := by
  rw [jsCeil_eq]
  exact Int.ceil_nonneg h

theorem notForbidden_In (x y : String) :
    ("In " ++ x ++ y ≠ "Next month") ∧ ("In " ++ x ++ y ≠ "Last month") ∧
    ("In " ++ x ++ y ≠ "Next year") ∧ ("In " ++ x ++ y ≠ "Last year") := by
  have h : ("In " ++ x ++ y).data.head? = some 'I' :=
    strHead_append _ y 'I' (strHead_append "In " x 'I' rfl)
  exact ⟨ne_of_heads _ _ 'I' 'N' h rfl (by decide), ne_of_heads _ _ 'I' 'L' h rfl (by decide),
    ne_of_heads _ _ 'I' 'N' h rfl (by decide), ne_of_heads _ _ 'I' 'L' h rfl (by decide)⟩

theorem notForbidden_digit (m : ℤ) (hm : 0 ≤ m) (x : String) :
    (toString m ++ x ≠ "Next month") ∧ (toString m ++ x ≠ "Last month") ∧
    (toString m ++ x ≠ "Next year") ∧ (toString m ++ x ≠ "Last year") := by
  obtain ⟨j, rest, hj, hd⟩ := intRepr_head m hm
  obtain ⟨h0, h9⟩ := digitChar_range j hj
  have h : (toString m ++ x).data.head? = some (Nat.digitChar j) :=
    strHead_append _ _ _ (by rw [hd]; rfl)
  refine ⟨ne_of_heads _ _ _ 'N' h rfl ?_, ne_of_heads _ _ _ 'L' h rfl ?_,
    ne_of_heads _ _ _ 'N' h rfl ?_, ne_of_heads _ _ _ 'L' h rfl ?_⟩ <;>
    (intro he; rw [he] at h0 h9; revert h0 h9; decide)

theorem minuteHour_notForbidden (p n : ℤ) :
    minuteHourTier p n ≠ "Next month" ∧ minuteHourTier p n ≠ "Last month" ∧
    minuteHourTier p n ≠ "Next year" ∧ minuteHourTier p n ≠ "Last year" := by
  simp only [minuteHourTier]
  by_cases c1 : |diffMinutesOf p n| < 5
  · rw [if_pos c1]; exact ⟨by decide, by decide, by decide, by decide⟩
  · rw [if_neg c1]
    by_cases c2 : |diffMinutesOf p n| < 60
    · rw [if_pos c2]
      by_cases c3 : diffMinutesOf p n < 0
      · rw [if_pos c3]
        by_cases c4 : jsRound |diffMinutesOf p n| = 1
        · rw [if_pos c4]; exact ⟨by decide, by decide, by decide, by decide⟩
        · rw [if_neg c4]
          exact notForbidden_digit _ (jsRound_nonneg _ (abs_nonneg _)) _
      · rw [if_neg c3]
        by_cases c4 : jsRound |diffMinutesOf p n| = 1
        · rw [if_pos c4]; exact ⟨by decide, by decide, by decide, by decide⟩
        · rw [if_neg c4]
          exact notForbidden_In _ _
    · rw [if_neg c2]
      by_cases c3 : diffHoursOf p n < 0
      · rw [if_pos c3]
        by_cases c4 : jsRound |diffHoursOf p n| = 1
        · rw [if_pos c4]; exact ⟨by decide, by decide, by decide, by decide⟩
        · rw [if_neg c4]
          exact notForbidden_digit _ (jsRound_nonneg _ (abs_nonneg _)) _
      · rw [if_neg c3]
        by_cases c4 : jsRound |diffHoursOf p n| = 1
        · rw [if_pos c4]; exact ⟨by decide, by decide, by decide, by decide⟩
        · rw [if_neg c4]
          exact notForbidden_In _ _

theorem dayTier_notForbidden (d : ℤ) :
    dayTier d ≠ "Next month" ∧ dayTier d ≠ "Last month" ∧
    dayTier d ≠ "Next year" ∧ dayTier d ≠ "Last year" := by
  simp only [dayTier]
  by_cases c0 : d = 0
  · rw [if_pos c0]; exact ⟨by decide, by decide, by decide, by decide⟩
  · rw [if_neg c0]
    by_cases c1 : d = 1
    · rw [if_pos c1]; exact ⟨by decide, by decide, by decide, by decide⟩
    · rw [if_neg c1]
      by_cases c2 : d = -1
      · rw [if_pos c2]; exact ⟨by decide, by decide, by decide, by decide⟩
      · rw [if_neg c2]
        by_cases c3 : 1 < d ∧ d ≤ 7
        · rw [if_pos c3]; exact notForbidden_In _ _
        · rw [if_neg c3]
          by_cases c4 : d < -1 ∧ -7 ≤ d
          · rw [if_pos c4]; exact notForbidden_digit _ (abs_nonneg _) _
          · rw [if_neg c4]
            by_cases c5 : 7 < d ∧ d ≤ 14
            · rw [if_pos c5]; exact ⟨by decide, by decide, by decide, by decide⟩
            · rw [if_neg c5]
              by_cases c6 : d < -7 ∧ -14 ≤ d
              · rw [if_pos c6]; exact ⟨by decide, by decide, by decide, by decide⟩
              · rw [if_neg c6]
                by_cases c7 : 14 < d ∧ d ≤ 30
                · rw [if_pos c7]; exact notForbidden_In _ _
                · rw [if_neg c7]
                  by_cases c8 : d < -14 ∧ -30 ≤ d
                  · rw [if_pos c8]
                    exact notForbidden_digit _
                      (jsCeil_nonneg _ (by positivity)) _
                  · rw [if_neg c8]
                    by_cases c9 : 30 < d ∧ d ≤ 365
                    · rw [if_pos c9]
                      by_cases c9e : jsCeil ((d : ℚ) / 30) = 1
                      · exfalso
                        rw [jsCeil_eq] at c9e
                        have hb := two_le_ceil_div d 30 (by norm_num) (by exact_mod_cast c9.1)
                        omega
                      · rw [if_neg c9e]; exact notForbidden_In _ _
                    · rw [if_neg c9]
                      by_cases c10 : d < -30 ∧ -365 ≤ d
                      · rw [if_pos c10]
                        by_cases c10e : jsCeil (((|d| : ℤ) : ℚ) / 30) = 1
                        · exfalso
                          rw [jsCeil_eq] at c10e
                          have hd30 : (30 : ℤ) < |d| := by
                            rw [abs_of_neg (show d < 0 by omega)]; omega
                          have hb := two_le_ceil_div |d| 30 (by norm_num) (by exact_mod_cast hd30)
                          omega
                        · rw [if_neg c10e]
                          exact notForbidden_digit _
                            (jsCeil_nonneg _ (by positivity)) _
                      · rw [if_neg c10]
                        by_cases c11 : 365 < d
                        · rw [if_pos c11]
                          by_cases c11e : jsCeil ((d : ℚ) / 365) = 1
                          · exfalso
                            rw [jsCeil_eq] at c11e
                            have hb := two_le_ceil_div d 365 (by norm_num) (by exact_mod_cast c11)
                            omega
                          · rw [if_neg c11e]; exact notForbidden_In _ _
                        · rw [if_neg c11]
                          by_cases c12e : jsCeil (((|d| : ℤ) : ℚ) / 365) = 1
                          · exfalso
                            rw [jsCeil_eq] at c12e
                            have hd365 : (365 : ℤ) < |d| := by
                              rw [abs_of_neg (show d < 0 by omega)]; omega
                            have hb := two_le_ceil_div |d| 365 (by norm_num) (by exact_mod_cast hd365)
                            omega
                          · rw [if_neg c12e]
                            exact notForbidden_digit _
                              (jsCeil_nonneg _ (by positivity)) _

/-- C10: the formatter never outputs "Next month", "Last month",
"Next year" or "Last year": those branches are unreachable because the
ceiling of d/30 is at least 2 whenever d exceeds 30 and the ceiling of
d/365 is at least 2 whenever d exceeds 365, so month and year
proximities always render as "In N months" / "N months ago" /
"In N years" / "N years ago" with N at least 2. -/
theorem C10_no_next_last_month_year :
    (∀ p n : ℤ,
      formatRel p n ≠ "Next month" ∧ formatRel p n ≠ "Last month" ∧
      formatRel p n ≠ "Next year" ∧ formatRel p n ≠ "Last year") ∧
    (∀ d : ℤ,
      (30 < d ∧ d ≤ 365 →
        2 ≤ ⌈(d : ℚ) / 30⌉ ∧
          dayTier d = "In " ++ toString ⌈(d : ℚ) / 30⌉ ++ " months") ∧
      (-365 ≤ d ∧ d < -30 →
        2 ≤ ⌈((|d| : ℤ) : ℚ) / 30⌉ ∧
          dayTier d = toString ⌈((|d| : ℤ) : ℚ) / 30⌉ ++ " months ago") ∧
      (365 < d →
        2 ≤ ⌈(d : ℚ) / 365⌉ ∧
          dayTier d = "In " ++ toString ⌈(d : ℚ) / 365⌉ ++ " years") ∧
      (d < -365 →
        2 ≤ ⌈((|d| : ℤ) : ℚ) / 365⌉ ∧
          dayTier d = toString ⌈((|d| : ℤ) : ℚ) / 365⌉ ++ " years ago")) := by
  constructor
  · intro p n
    unfold formatRel
    by_cases c : hasTimeComponent p = true ∧ |diffHoursOf p n| < 24
    · rw [if_pos c]
      exact minuteHour_notForbidden p n
    · rw [if_neg c]
      exact dayTier_notForbidden _
  · intro d
    refine ⟨fun h => ?_, fun h => ?_, fun h => ?_, fun h => ?_⟩
    · have hb := two_le_ceil_div d 30 (by norm_num) (by exact_mod_cast h.1)
      refine ⟨hb, ?_⟩
      simp only [dayTier, jsCeil_eq]
      repeat rw [if_neg (by omega)]
      rw [if_pos (by omega), if_neg (by omega)]
    · have hd30 : (30 : ℤ) < |d| := by
        rw [abs_of_neg (show d < 0 by omega)]; omega
      have hb := two_le_ceil_div |d| 30 (by norm_num) (by exact_mod_cast hd30)
      refine ⟨hb, ?_⟩
      simp only [dayTier, jsCeil_eq]
      repeat rw [if_neg (by omega)]
      rw [if_pos (by omega), if_neg (by omega)]
    · have hb := two_le_ceil_div d 365 (by norm_num) (by exact_mod_cast h)
      refine ⟨hb, ?_⟩
      simp only [dayTier, jsCeil_eq]
      repeat rw [if_neg (by omega)]
      rw [if_pos (by omega), if_neg (by omega)]
    · have hd365 : (365 : ℤ) < |d| := by
        rw [abs_of_neg (show d < 0 by omega)]; omega
      have hb := two_le_ceil_div |d| 365 (by norm_num) (by exact_mod_cast hd365)
      refine ⟨hb, ?_⟩
      simp only [dayTier, jsCeil_eq]
      repeat rw [if_neg (by omega)]

/-- C10, witness: the never-forbidden fact at a concrete pair and the
month bucket at 45 days, whose count is 2. -/
theorem C10_no_next_last_month_year_witness :
    (formatRel (jsDate 2025 7 28 0 0) (jsDate 2025 7 29 14 50) ≠ "Next month" ∧
     formatRel (jsDate 2025 7 28 0 0) (jsDate 2025 7 29 14 50) ≠ "Last month" ∧
     formatRel (jsDate 2025 7 28 0 0) (jsDate 2025 7 29 14 50) ≠ "Next year" ∧
     formatRel (jsDate 2025 7 28 0 0) (jsDate 2025 7 29 14 50) ≠ "Last year") ∧
    (2 ≤ ⌈((45 : ℤ) : ℚ) / 30⌉ ∧
      dayTier 45 = "In " ++ toString ⌈((45 : ℤ) : ℚ) / 30⌉ ++ " months") :=
  ⟨C10_no_next_last_month_year.1 (jsDate 2025 7 28 0 0) (jsDate 2025 7 29 14 50),
   (C10_no_next_last_month_year.2 45).1 (by decide)⟩

theorem scanAux_start_le (matchAt : List Char → Option (DateCaps × List Char)) :
    ∀ (fuel i : Nat) (s : List Char) (e : Nat × Nat × DateCaps),
      e ∈ scanAux matchAt fuel i s → i ≤ e.1 := by
  intro fuel
  induction fuel with
  | zero => intro i s e he; cases he
  | succ f ih =>
    intro i s e he
    cases s with
    | nil => cases he
    | cons c rest =>
      unfold scanAux at he
      cases hm : matchAt (c :: rest) with
      | some v =>
        obtain ⟨caps, r⟩ := v
        simp only [hm] at he
        cases he with
        | head => exact Nat.le_refl i
        | tail _ ht =>
          have hle := ih _ _ e ht
          omega
      | none =>
        simp only [hm] at he
        have hle := ih _ _ e he
        omega

/-- The matches reported by one scan pass are chained: each one ends at
or before the start of the next, because exec continues searching after
the end of every reported match. -/
theorem scanAux_chain (matchAt : List Char → Option (DateCaps × List Char)) :
    ∀ (fuel i : Nat) (s : List Char),
      List.Pairwise (fun e f => e.1 + e.2.1 ≤ f.1) (scanAux matchAt fuel i s) := by
  intro fuel
  induction fuel with
  | zero => intro i s; exact List.Pairwise.nil
  | succ f ih =>
    intro i s
    cases s with
    | nil => exact List.Pairwise.nil
    | cons c rest =>
      unfold scanAux
      cases hm : matchAt (c :: rest) with
      | some v =>
        obtain ⟨caps, r⟩ := v
        refine List.Pairwise.cons ?_ (ih _ _)
        intro e he
        have hle := scanAux_start_le matchAt f _ _ e he
        dsimp only
        omega
      | none => exact ih _ _

theorem pairwise_filterMap {α β : Type _} (f : α → Option β) {R : α → α → Prop}
    {S : β → β → Prop}
    (h : ∀ a b x y, R a b → f a = some x → f b = some y → S x y) :
    ∀ l : List α, List.Pairwise R l → List.Pairwise S (l.filterMap f) := by
  intro l
  induction l with
  | nil => intro _; exact List.Pairwise.nil
  | cons a t ih =>
    intro hp
    rw [List.filterMap_cons]
    cases hfa : f a with
    | none => exact ih hp.of_cons
    | some x =>
      refine List.Pairwise.cons ?_ (ih hp.of_cons)
      intro y hy
      obtain ⟨b, hb, hfb⟩ := List.mem_filterMap.mp hy
      exact h a b x y (List.rel_of_pairwise_cons hp hb) hfa hfb

theorem snd_mem_enumFrom {α : Type _} : ∀ (n : Nat) (l : List α) (p : Nat × α),
    p ∈ l.enumFrom n → p.2 ∈ l := by
  intro n l
  induction l generalizing n with
  | nil => intro p hp; cases hp
  | cons a t ih =>
    intro p hp
    cases hp with
    | head => exact List.mem_cons_self _ _
    | tail _ ht => exact List.mem_cons_of_mem _ (ih (n + 1) p ht)

theorem pairwise_enumFrom {α : Type _} {R : α → α → Prop} :
    ∀ (n : Nat) (l : List α), List.Pairwise R l →
      List.Pairwise (fun a b => R a.2 b.2) (l.enumFrom n) := by
  intro n l
  induction l generalizing n with
  | nil => intro _; exact List.Pairwise.nil
  | cons a t ih =>
    intro hp
    refine List.Pairwise.cons ?_ (ih (n + 1) hp.of_cons)
    intro b hb
    exact List.rel_of_pairwise_cons hp (snd_mem_enumFrom (n + 1) t b hb)

/-- Every directive emitted by the bracketed pass carries the span of
its underlying bracketed match. -/
theorem bracketDirs_mem_span (t : List Char) (cursor : Nat) (clock : Nat → ℤ)
    (d : Directive) (hd : d ∈ bracketDirs t cursor clock) :
    ∃ m ∈ scanBracketed t, d.dFrom = m.1 ∧ d.dTo = m.1 + m.2.1 := by
  unfold bracketDirs at hd
  obtain ⟨⟨k, i, len, caps⟩, hmem, hf⟩ := List.mem_filterMap.mp hd
  refine ⟨(i, len, caps), snd_mem_enumFrom 0 _ _ hmem, ?_⟩
  cases hfmt : formatDateAsHumanReadable (innerString t i len) (clock k) with
  | none => simp only [hfmt] at hf; exact Option.noConfusion hf
  | some hr =>
    simp only [hfmt] at hf
    by_cases hcur : i ≤ cursor ∧ cursor ≤ i + len
    · rw [if_pos hcur] at hf
      exact Option.noConfusion hf
    · rw [if_neg hcur] at hf
      injection hf with hf2
      subst hf2
      exact ⟨rfl, rfl⟩

/-- Every directive emitted by the plain pass carries the span of its
underlying surviving plain match. -/
theorem plainDirs_mem_span (t : List Char) (cursor : Nat) (clock : Nat → ℤ)
    (d : Directive) (hd : d ∈ plainDirs t cursor clock) :
    ∃ m ∈ plainKept t, d.dFrom = m.1 ∧ d.dTo = m.1 + m.2.1 := by
  unfold plainDirs at hd
  obtain ⟨⟨k, i, len, caps⟩, hmem, hf⟩ := List.mem_filterMap.mp hd
  refine ⟨(i, len, caps), snd_mem_enumFrom 0 _ _ hmem, ?_⟩
  cases hfmt : formatDateAsHumanReadable (matchString t i len)
      (clock ((scanBracketed t).length + k)) with
  | none => simp only [hfmt] at hf; exact Option.noConfusion hf
  | some hr =>
    simp only [hfmt] at hf
    by_cases hcur : i ≤ cursor ∧ cursor ≤ i + len
    · rw [if_pos hcur] at hf
      exact Option.noConfusion hf
    · rw [if_neg hcur] at hf
      injection hf with hf2
      subst hf2
      exact ⟨rfl, rfl⟩

/-- A plain match that survived the overlap filter is disjoint from
every recorded bracketed span. -/
theorem plainKept_no_overlap (t : List Char) (m : Nat × Nat × DateCaps)
    (hm : m ∈ plainKept t) :
    ∀ r ∈ processedRangesOf t, m.1 + m.2.1 ≤ r.1 ∨ r.2 ≤ m.1 := by
  unfold plainKept at hm
  obtain ⟨hmem, hpred⟩ := List.mem_filter.mp hm
  intro r hr
  obtain ⟨i, len, caps⟩ := m
  obtain ⟨rf, rt⟩ := r
  simp only [Bool.not_eq_eq_eq_not, Bool.not_true, List.any_eq_false] at hpred
  have h2 := hpred (rf, rt) hr
  simp only [overlapsRange, Bool.or_eq_true, Bool.and_eq_true, decide_eq_true_eq,
    not_or, not_and] at h2
  dsimp only
  omega

theorem plainKept_chain (t : List Char) :
    List.Pairwise (fun e f => e.1 + e.2.1 ≤ f.1) (plainKept t) :=
  List.Pairwise.sublist (List.filter_sublist _) (scanAux_chain matchPlainAt _ 0 _)

/-- C9: for every text buffer, cursor position and clock, the emitted
replacement directives are sorted by ascending start offset and no two
directive spans overlap; moreover every plain occurrence that survives
the shadowing filter is disjoint from every recorded bracketed span, so
a plain occurrence whose span intersects a bracketed span (by
containment, partial overlap or exact match) is discarded. -/
theorem C9_no_overlap_sorted :
    (∀ (text : String) (cursor : Nat) (clock : Nat → ℤ),
      List.Sorted dirLE (buildDecorations text cursor clock) ∧
      List.Pairwise (fun a b => a.dTo ≤ b.dFrom ∨ b.dTo ≤ a.dFrom)
        (buildDecorations text cursor clock)) ∧
    (∀ (t : List Char) (m : Nat × Nat × DateCaps), m ∈ plainKept t →
      ∀ r ∈ processedRangesOf t, m.1 + m.2.1 ≤ r.1 ∨ r.2 ≤ m.1) := by
  refine ⟨fun text cursor clock => ?_, plainKept_no_overlap⟩
  constructor
  · exact List.sorted_insertionSort dirLE _
  · unfold buildDecorations
    refine ((List.perm_insertionSort dirLE _).pairwise_iff (fun h => h.symm)).mpr ?_
    rw [List.pairwise_append]
    refine ⟨?_, ?_, ?_⟩
    · unfold bracketDirs
      apply pairwise_filterMap _ ?_ _ (pairwise_enumFrom 0 _ (scanAux_chain matchBracketAt _ 0 _))
      rintro ⟨ka, ia, la, ca⟩ ⟨kb, ib, lb, cb⟩ x y hR hfa hfb
      have hxs : x.dFrom = ia ∧ x.dTo = ia + la := by
        cases hfmt : formatDateAsHumanReadable (innerString text.toList ia la) (clock ka) with
        | none => simp only [hfmt] at hfa; exact Option.noConfusion hfa
        | some hr =>
          simp only [hfmt] at hfa
          by_cases hcur : ia ≤ cursor ∧ cursor ≤ ia + la
          · rw [if_pos hcur] at hfa; exact Option.noConfusion hfa
          · rw [if_neg hcur] at hfa
            injection hfa with hf2
            subst hf2
            exact ⟨rfl, rfl⟩
      have hys : y.dFrom = ib ∧ y.dTo = ib + lb := by
        cases hfmt : formatDateAsHumanReadable (innerString text.toList ib lb) (clock kb) with
        | none => simp only [hfmt] at hfb; exact Option.noConfusion hfb
        | some hr =>
          simp only [hfmt] at hfb
          by_cases hcur : ib ≤ cursor ∧ cursor ≤ ib + lb
          · rw [if_pos hcur] at hfb; exact Option.noConfusion hfb
          · rw [if_neg hcur] at hfb
            injection hfb with hf2
            subst hf2
            exact ⟨rfl, rfl⟩
      left
      simp only at hR
      omega
    · unfold plainDirs
      apply pairwise_filterMap _ ?_ _ (pairwise_enumFrom 0 _ (plainKept_chain text.toList))
      rintro ⟨ka, ia, la, ca⟩ ⟨kb, ib, lb, cb⟩ x y hR hfa hfb
      have hxs : x.dFrom = ia ∧ x.dTo = ia + la := by
        cases hfmt : formatDateAsHumanReadable (matchString text.toList ia la)
            (clock ((scanBracketed text.toList).length + ka)) with
        | none => simp only [hfmt] at hfa; exact Option.noConfusion hfa
        | some hr =>
          simp only [hfmt] at hfa
          by_cases hcur : ia ≤ cursor ∧ cursor ≤ ia + la
          · rw [if_pos hcur] at hfa; exact Option.noConfusion hfa
          · rw [if_neg hcur] at hfa
            injection hfa with hf2
            subst hf2
            exact ⟨rfl, rfl⟩
      have hys : y.dFrom = ib ∧ y.dTo = ib + lb := by
        cases hfmt : formatDateAsHumanReadable (matchString text.toList ib lb)
            (clock ((scanBracketed text.toList).length + kb)) with
        | none => simp only [hfmt] at hfb; exact Option.noConfusion hfb
        | some hr =>
          simp only [hfmt] at hfb
          by_cases hcur : ib ≤ cursor ∧ cursor ≤ ib + lb
          · rw [if_pos hcur] at hfb; exact Option.noConfusion hfb
          · rw [if_neg hcur] at hfb
            injection hfb with hf2
            subst hf2
            exact ⟨rfl, rfl⟩
      left
      simp only at hR
      omega
    · intro x hx y hy
      obtain ⟨mb, hmb, hbf, hbt⟩ := bracketDirs_mem_span text.toList cursor clock x hx
      obtain ⟨mp, hmp, hpf, hpt⟩ := plainDirs_mem_span text.toList cursor clock y hy
      have hrmem : (mb.1, mb.1 + mb.2.1) ∈ processedRangesOf text.toList := by
        unfold processedRangesOf
        obtain ⟨bi, blen, bcaps⟩ := mb
        exact List.mem_map_of_mem _ hmb
      have hdisj := plainKept_no_overlap text.toList mp hmp (mb.1, mb.1 + mb.2.1) hrmem
      simp only at hdisj
      rcases hdisj with h | h
      · right; omega
      · left; omega

/-- C9, witness for the overlap part: in a buffer holding a bracketed
date followed by a separate plain date, the surviving plain match at
offset 20 of length 15 is disjoint from the recorded bracketed span
[0, 19). -/
theorem C9_no_overlap_sorted_witness :
    (20 + 15 ≤ 0 ∨ 19 ≤ 20) :=
  C9_no_overlap_sorted.2 "[[Fri Aug 29 2025]] Sat Aug 30 2025".toList
    (20, 15, ⟨⟨"Sat", "Aug", ['3', '0'], ['2', '0', '2', '5']⟩, none⟩)
    (by decide) (0, 19) (by decide)
